import Mathlib

/-!
Shallow embedding of the codeSmol agent (src/codeSmol.ts): the canonical
content-block message model, the chat-with-tool-calls protocol adapter
(the groq branch of callApi and the groq decode branch of main), the tool
registry with its schema derivation (makeSchema), the runTool boundary,
the edit tool, and the agentic turn loop of main.
-/

namespace CodeSmol

/-- Primitive JSON-style values appearing in tool-call inputs. -/
inductive JVal where
| str (s : String)
| num (n : Int)
| bool (b : Bool)
deriving DecidableEq

/-- A tool input object: an ordered mapping of parameter name to value
(the input field of a tool_use block; ToolArgs in the source). -/
abbrev ToolArgs := List (String × JVal)

/-- Canonical content blocks: the tagged union over text, tool_use and
tool_result of the data model. -/
inductive ContentBlock where
| text (t : String)
| tool_use (id : String) (name : String) (input : ToolArgs)
| tool_result (tool_use_id : String) (content : String)
deriving DecidableEq

/-- Message roles as declared by the source Message interface. -/
inductive Role where
| user
| assistant
| system
deriving DecidableEq

/-- Message content is either a plain string or an ordered block sequence. -/
inductive MContent where
| str (s : String)
| blocks (bs : List ContentBlock)
deriving DecidableEq

/-- A canonical history message. -/
structure Message where
  role : Role
  content : MContent
deriving DecidableEq

/-- One entry of an assistant chat message tool-call list. On the wire the
arguments travel as a JSON string: JSON.stringify at encode time and
JSON.parse at decode time. That host serialize/parse pair is the identity on
values it produced, so the embedding carries the structured value itself. -/
structure ToolCall where
  id : String
  name : String
  arguments : ToolArgs
deriving DecidableEq

/-- A chat-with-tool-calls wire message. content is None where the source
places JSON null; tool_calls is None when the source omits the field. -/
structure ChatMessage where
  role : String
  content : Option String
  tool_call_id : Option String
  tool_calls : Option (List ToolCall)
deriving DecidableEq

/-- JSON string escaping for the basic escape set. -/
def jsonEscape (s : String) : String :=
  s.foldl (fun acc c =>
    acc ++ (if c = '"' then "\\\"" else if c = '\\' then "\\\\"
      else if c = '\n' then "\\n" else if c = '\r' then "\\r"
      else if c = '\t' then "\\t" else String.singleton c)) ""

/-- A JSON string literal. -/
def jsonQuote (s : String) : String := "\"" ++ jsonEscape s ++ "\""

/-- Serialization of a primitive value. -/
def JVal.toJson : JVal → String
| .str s => jsonQuote s
| .num n => toString n
| .bool b => if b then "true" else "false"

/-- Serialization of a tool input object. -/
def toolArgsToJson (args : ToolArgs) : String :=
  "\x7b" ++ String.intercalate ","
    (args.map (fun kv => jsonQuote kv.1 ++ ":" ++ JVal.toJson kv.2)) ++ "\x7d"

/-- Serialization of one canonical content block. -/
def ContentBlock.toJson : ContentBlock → String
| .text t => "\x7b\"type\":\"text\",\"text\":" ++ jsonQuote t ++ "\x7d"
| .tool_use id name input =>
    "\x7b\"type\":\"tool_use\",\"id\":" ++ jsonQuote id ++ ",\"name\":" ++
      jsonQuote name ++ ",\"input\":" ++ toolArgsToJson input ++ "\x7d"
| .tool_result tuid c =>
    "\x7b\"type\":\"tool_result\",\"tool_use_id\":" ++ jsonQuote tuid ++
      ",\"content\":" ++ jsonQuote c ++ "\x7d"

/-- JSON.stringify of a canonical block array (the content of a tool-role
chat message in the groq encoding). -/
def stringifyBlocks (bs : List ContentBlock) : String :=
  "[" ++ String.intercalate "," (bs.map ContentBlock.toJson) ++ "]"

/-- Whether a block is a text block. -/
def isTextB : ContentBlock → Bool
| .text _ => true
| _ => false

/-- Whether a block is a tool_use block. -/
def isToolUseB : ContentBlock → Bool
| .tool_use _ _ _ => true
| _ => false

/-- First text sub-block of a block array, yielding its text field
(content.find on type text in the source). -/
def findFirstText : List ContentBlock → Option String
| [] => none
| .text t :: _ => some t
| _ :: rest => findFirstText rest

/-- The tool-call list built from the tool_use sub-blocks in order
(content.filter on type tool_use, mapped to function-call entries). -/
def toolCallsOf (bs : List ContentBlock) : List ToolCall :=
  bs.filterMap (fun b => match b with
    | .tool_use id name input => some ⟨id, name, input⟩
    | _ => none)

/-- Correlation id of a tool-role chat message: the tool_use_id of
content[0] when that is present and truthy, else the placeholder unknown
(the source reads content[0]?.tool_use_id with a fallback). -/
def firstToolCallId : List ContentBlock → String
| [] => "unknown"
| .tool_result tuid _ :: _ => if tuid = "" then "unknown" else tuid
| _ :: _ => "unknown"

/-- Encoding of an assistant message whose content is a block array into one
chat message: the first text sub-block becomes the textual content, demoted
to null when absent or the empty string (JS truthiness of the source
expression textContent?.text with a null fallback); every tool_use
sub-block becomes one tool-call entry, and the tool_calls field is set only
when at least one is present. -/
def encodeAssistantBlocks (bs : List ContentBlock) : ChatMessage :=
  let textContent := findFirstText bs
  let toolUses := toolCallsOf bs
  ⟨"assistant",
    (match textContent with
     | some t => if t = "" then none else some t
     | none => none),
    none,
    if toolUses.isEmpty then none else some toolUses⟩

/-- Groq-family encoding of one canonical history message into chat messages
(the body of the message loop in callApi). A role not handled by the loop
contributes nothing. -/
def encodeMessageGroq : Message → List ChatMessage
| ⟨.user, .blocks bs⟩ =>
    [⟨"tool", some (stringifyBlocks bs), some (firstToolCallId bs), none⟩]
| ⟨.user, .str s⟩ => [⟨"user", some s, none, none⟩]
| ⟨.assistant, .blocks bs⟩ => [encodeAssistantBlocks bs]
| ⟨.assistant, .str s⟩ => [⟨"assistant", some s, none, none⟩]
| ⟨.system, _⟩ => []

/-- The full groq request message list: the system prompt as the first chat
message, then the encoded history in order. -/
def encodeMessagesGroq (systemPrompt : String) (msgs : List Message) :
    List ChatMessage :=
  ⟨"system", some systemPrompt, none, none⟩ :: msgs.flatMap encodeMessageGroq

/-- Groq-family decoding of a response chat message into canonical blocks
(main, provider groq branch): one text block when the content is truthy,
then one tool_use block per tool call, in order. -/
def decodeChatMessage (m : ChatMessage) : List ContentBlock :=
  (match m.content with
   | some s => if s = "" then [] else [ContentBlock.text s]
   | none => []) ++
  (match m.tool_calls with
   | some tcs => tcs.map (fun tc => ContentBlock.tool_use tc.id tc.name tc.arguments)
   | none => [])

/-- Round trip for the chat-with-tool-calls family: encode an assistant
block array, then decode a provider response carrying that chat message. -/
def roundTripChat (bs : List ContentBlock) : List ContentBlock :=
  decodeChatMessage (encodeAssistantBlocks bs)

/-- A registered tool as seen by schema derivation: name, description and
the declared parameter table in insertion order. The fn handler performs
file and process input and output; it is modelled separately at the
runTool boundary. -/
structure ToolDef where
  name : String
  description : String
  params : List (String × String)
deriving DecidableEq

/-- The fixed tool registry (TOOLS in the source), in insertion order. -/
def TOOLS : List ToolDef :=
  [⟨"read", "Read file with line numbers (file path, not directory)",
    [("path", "string"), ("offset", "number?"), ("limit", "number?")]⟩,
   ⟨"write", "Write content to file",
    [("path", "string"), ("content", "string")]⟩,
   ⟨"edit", "Replace old with new in file (old must be unique unless all=true)",
    [("path", "string"), ("old", "string"), ("new", "string"), ("all", "boolean?")]⟩,
   ⟨"glob", "Find files by pattern, sorted by mtime",
    [("pat", "string"), ("path", "string?")]⟩,
   ⟨"grep", "Search files for regex pattern",
    [("pat", "string"), ("path", "string?")]⟩,
   ⟨"bash", "Run shell command",
    [("cmd", "string")]⟩]

/-- Replace the first occurrence of the pattern in a character list by the
replacement; a list whose head starts the pattern is rewritten, otherwise
the head is kept and the tail searched. -/
def replaceFirstAux (pat repl : List Char) : List Char → List Char
| [] => []
| c :: rest =>
  if pat.isPrefixOf (c :: rest) then repl ++ (c :: rest).drop pat.length
  else c :: replaceFirstAux pat repl rest

/-- JS String.prototype.replace with a plain-string pattern: replaces only
the first occurrence; with the empty pattern the replacement is prepended. -/
def jsReplaceFirst (s pat repl : String) : String :=
  if s.data.isEmpty then (if pat.data.isEmpty then repl ++ s else s)
  else String.mk (replaceFirstAux pat.data repl.data s.data)

/-- JS String.prototype.endsWith, computed on the character lists. -/
def strEndsWith (s pat : String) : Bool := pat.data.isSuffixOf s.data

/-- One entry of the derived schema: properties maps each parameter name to
the emitted type string; required lists the mandatory parameter names. -/
structure SchemaEntry where
  name : String
  description : String
  properties : List (String × String)
  required : List String
deriving DecidableEq

/-- Schema derivation (makeSchema in the source): for each registry entry
walk the declared parameters in order; a parameter is optional when its
declared type ends with the question mark, the base type is the declared
type with the first question mark removed, the emitted type is integer for
the base type number and the base type itself otherwise, and mandatory
parameter names are pushed onto required. -/
def makeSchema : List SchemaEntry :=
  TOOLS.map (fun td =>
    let pr := td.params.foldl (fun acc pt =>
      let isOptional := strEndsWith pt.2 "?"
      let baseType := jsReplaceFirst pt.2 "?" ""
      (acc.1 ++ [(pt.1, if baseType = "number" then "integer" else baseType)],
       if isOptional then acc.2 else acc.2 ++ [pt.1]))
      (([], []) : List (String × String) × List String)
    ⟨td.name, td.description, pr.1, pr.2⟩)

/-- A tool handler either returns a result string or raises, modelled as
Except carrying the raised message. -/
abbrev ToolFn := ToolArgs → Except String String

/-- The runTool boundary: look the name up among the registered handlers and
run it inside the try block. A lookup miss makes the source expression
TOOLS[name].fn raise a TypeError inside the same try block, whose host
message reads Cannot read properties of undefined; any raise is caught and
converted to a string prefixed with error: followed by the message. -/
def runTool (tools : List (String × ToolFn)) (name : String) (args : ToolArgs) :
    String :=
  match tools.lookup name with
  | none => "error: " ++ "Cannot read properties of undefined (reading fn)"
  | some f =>
    match f args with
    | .ok s => s
    | .error e => "error: " ++ e

/-- JS String.prototype.includes: substring containment. -/
def jsIncludes (text pat : String) : Bool :=
  pat.isEmpty || (text.splitOn pat).length ≥ 2

/-- The occurrence count the source takes from a global regex match over the
escaped old string: non-overlapping occurrences for a nonempty pattern, the
text length plus one for the empty pattern. -/
def jsGlobalMatchCount (text pat : String) : Nat :=
  if pat.isEmpty then text.length + 1 else (text.splitOn pat).length - 1

/-- JS text.split(pat).join(repl); with the empty pattern the split is into
single characters. -/
def jsSplitJoin (text pat repl : String) : String :=
  if pat.isEmpty then
    String.intercalate repl (text.toList.map (fun c => String.singleton c))
  else String.intercalate repl (text.splitOn pat)

/-- The edit tool (editFile): the text argument is the file content read at
entry. The presence check on the old string runs first, then the uniqueness
check unless all is set, and only then is the replacement written. The
result pair is the returned string and the write performed on the file,
none when no write happens. -/
def editFile (text old new : String) (all : Bool) : String × Option String :=
  if jsIncludes text old = false then ("error: old_string not found", none)
  else if all = false ∧ jsGlobalMatchCount text old > 1 then
    ("error: old_string appears " ++ toString (jsGlobalMatchCount text old) ++
      " times, must be unique (use all=true)", none)
  else
    ("ok", some (if all then jsSplitJoin text old new
      else jsReplaceFirst text old new))

/-- Observable events of one agentic turn, in the order they happen. -/
inductive Event where
| modelRequest
| toolInvoked (name : String) (id : String)
| appendAssistant (bs : List ContentBlock)
| appendToolResults (rs : List ContentBlock)
deriving DecidableEq

/-- Whether an event is a tool invocation. -/
def isToolInvokedE : Event → Bool
| .toolInvoked _ _ => true
| _ => false

/-- Whether an event is the append of the assistant message. -/
def isAppendAssistantE : Event → Bool
| .appendAssistant _ => true
| _ => false

/-- The dispatch loop over one turn of content blocks (the for loop of
main): each tool_use block, in order, invokes the runner and pushes one
tool_result block carrying the originating id; other blocks push nothing.
Returns the accumulated tool_result list and the invocation events. -/
def dispatchTools (rt : String → ToolArgs → String) (blocks : List ContentBlock) :
    List ContentBlock × List Event :=
  blocks.foldl (fun acc b =>
    match b with
    | .tool_use id name input =>
        (acc.1 ++ [ContentBlock.tool_result id (rt name input)],
         acc.2 ++ [Event.toolInvoked name id])
    | _ => acc) ([], [])

/-- The id, name and input of each tool_use block, in order. -/
def toolUseTriples (blocks : List ContentBlock) : List (String × String × ToolArgs) :=
  blocks.filterMap (fun b => match b with
    | .tool_use id name input => some (id, name, input)
    | _ => none)

/-- One successfully decoded iteration of the agentic while loop: the model
request happened, the block loop dispatches the tools, and then the
assistant message is pushed onto the history. Returns the new history, the
built tool_result list and the events of the iteration in order. -/
def turnIteration (rt : String → ToolArgs → String) (blocks : List ContentBlock)
    (history : List Message) : List Message × List ContentBlock × List Event :=
  let d := dispatchTools rt blocks
  (history ++ [⟨Role.assistant, MContent.blocks blocks⟩], d.1,
   Event.modelRequest :: d.2 ++ [Event.appendAssistant blocks])

/-- The message raised by callApi on a non-success HTTP status, carrying
the status code and the response body text. -/
def apiErrorMessage (status : Nat) (body : String) : String :=
  "API error: " ++ toString status ++ " - " ++ body

/-- How one user turn of the loop ends. -/
inductive Outcome where
| done
| errored (e : String)
| fuelExhausted
deriving DecidableEq

/-- Result of running the agentic while loop: the final history, how the
turn ended, and how many model requests were performed. -/
structure LoopResult where
  history : List Message
  outcome : Outcome
  requests : Nat
deriving DecidableEq

/-- The agentic while loop of main. The model collaborator maps the index
of the request within the turn to either the decoded content blocks or the
message of a raised transport or decode failure. Fuel bounds the recursion
of the embedding; the source loop is unbounded. A raise leaves the history
of that iteration untouched and ends the turn with an errored outcome (the
outer catch of main reports it and returns to the prompt). Otherwise the
iteration dispatches the tools and appends the assistant message, then
either finishes the turn when no tool_result was built, or appends the
user tool_result message and continues. -/
def agenticLoop (rt : String → ToolArgs → String)
    (model : Nat → Except String (List ContentBlock)) :
    Nat → Nat → List Message → LoopResult
| 0, _, h => ⟨h, Outcome.fuelExhausted, 0⟩
| fuel + 1, k, h =>
  match model k with
  | .error e => ⟨h, Outcome.errored e, 1⟩
  | .ok blocks =>
    let t := turnIteration rt blocks h
    if t.2.1.isEmpty then ⟨t.1, Outcome.done, 1⟩
    else
      let r := agenticLoop rt model fuel (k + 1)
        (t.1 ++ [⟨Role.user, MContent.blocks t.2.1⟩])
      ⟨r.history, r.outcome, r.requests + 1⟩

/-- One full user turn: the input is appended as a plain-text user message,
then the agentic loop runs. -/
def userTurn (rt : String → ToolArgs → String)
    (model : Nat → Except String (List ContentBlock))
    (fuel : Nat) (history : List Message) (input : String) : LoopResult :=
  agenticLoop rt model fuel 0 (history ++ [⟨Role.user, MContent.str input⟩])

/-- The effect of one REPL iteration of main on the stored history: empty
input and the quit commands leave it unchanged, the clear command resets it
to empty, and any other input runs a user turn. -/
def replStep (rt : String → ToolArgs → String)
    (model : Nat → Except String (List ContentBlock)) (fuel : Nat)
    (history : List Message) (input : String) : List Message :=
  if input = "" then history
  else if input = "/q" ∨ input = "exit" then history
  else if input = "/c" then []
  else (userTurn rt model fuel history input).history

/-- Histories reachable by the loop from the empty start, under any tool
runner, scripted model, fuel and input at each step. -/
inductive Reachable : List Message → Prop where
| init : Reachable []
| step (h : List Message) (rt : String → ToolArgs → String)
    (model : Nat → Except String (List ContentBlock)) (fuel : Nat)
    (input : String) : Reachable h → Reachable (replStep rt model fuel h input)

/-- Checks an event list for the ordering a specification sentence asserts:
every tool invocation must be preceded by an append of the assistant
message. The first argument records whether an assistant append has been
seen already. -/
def toolsAfterAssistant : Bool → List Event → Bool
| _, [] => true
| seen, e :: rest =>
  if isToolInvokedE e then seen && toolsAfterAssistant seen rest
  else toolsAfterAssistant (seen || isAppendAssistantE e) rest

section Lemmas

/-- Decoding the encoded tool-call list restores the tool_use blocks. -/
theorem toolCallsOf_map_back (bs : List ContentBlock) :
    (toolCallsOf bs).map
      (fun tc => ContentBlock.tool_use tc.id tc.name tc.arguments)
      = bs.filter isToolUseB := by
  induction bs with
  | nil => rfl
  | cons b rest ih => cases b <;> simpa [toolCallsOf, isToolUseB] using ih

/-- With at most one text block, all of nonempty text, the decoded text part
is exactly the filtered text blocks. -/
theorem findFirstText_filter (bs : List ContentBlock)
    (h1 : (bs.filter isTextB).length ≤ 1)
    (h2 : ∀ t, ContentBlock.text t ∈ bs → ¬ t = "") :
    (match findFirstText bs with
     | some t => if t = "" then [] else [ContentBlock.text t]
     | none => []) = bs.filter isTextB := by
  induction bs with
  | nil => rfl
  | cons b rest ih =>
    cases b with
    | text t =>
      have ht : ¬ t = "" := h2 t (by simp)
      have hrest : rest.filter isTextB = [] := by
        rw [List.filter_cons_of_pos (by simp [isTextB])] at h1
        simp only [List.length_cons] at h1
        exact List.length_eq_zero.mp (by omega)
      simp [findFirstText, isTextB, ht, hrest, List.filter_cons]
    | tool_use id name input =>
      rw [List.filter_cons_of_neg (by simp [isTextB])] at h1
      have := ih h1 (fun t ht => h2 t (List.mem_cons_of_mem _ ht))
      simpa [findFirstText, isTextB, List.filter_cons] using this
    | tool_result tuid c =>
      rw [List.filter_cons_of_neg (by simp [isTextB])] at h1
      have := ih h1 (fun t ht => h2 t (List.mem_cons_of_mem _ ht))
      simpa [findFirstText, isTextB, List.filter_cons] using this

/-- The round trip splits into the decoded text part and the restored
tool_use blocks. -/
theorem roundTripChat_eq (bs : List ContentBlock) :
    roundTripChat bs =
      (match findFirstText bs with
       | some t => if t = "" then [] else [ContentBlock.text t]
       | none => []) ++ bs.filter isToolUseB := by
  unfold roundTripChat decodeChatMessage encodeAssistantBlocks
  rw [← toolCallsOf_map_back]
  cases hf : findFirstText bs with
  | none =>
    by_cases he : (toolCallsOf bs).isEmpty
    · simp_all [List.isEmpty_iff]
    · simp_all
  | some t =>
    by_cases he : (toolCallsOf bs).isEmpty
    · by_cases ht : t = "" <;> simp_all [List.isEmpty_iff]
    · by_cases ht : t = "" <;> simp_all

end Lemmas

/-- C1: the round-trip claim fails as stated. A conversation history whose
assistant message carries a text block with the empty string (and a second
text block) loses blocks: encoding demotes the empty text to null and keeps
only the first text sub-block, so decoding the synthetic response yields no
blocks at all. -/
theorem c1_counterexample :
    ContentBlock.text "" ∈ [ContentBlock.text "", ContentBlock.text "x"] ∧
    ContentBlock.text "x" ∈ [ContentBlock.text "", ContentBlock.text "x"] ∧
    roundTripChat [ContentBlock.text "", ContentBlock.text "x"] = [] := by
  refine ⟨by simp, by simp, ?_⟩
  rfl

/-- C1 (amended): for an assistant block array with at most one text block,
of nonempty text, encoding to the chat-with-tool-calls wire shape and then
decoding a provider response built from it yields exactly the text blocks
followed by the tool_use blocks of the original, with the tool-call list in
the original order; an empty-string text block, or text blocks beyond the
first, are dropped by the encoder. -/
theorem c1_round_trip (bs : List ContentBlock)
    (h1 : (bs.filter isTextB).length ≤ 1)
    (h2 : ∀ t, ContentBlock.text t ∈ bs → ¬ t = "") :
    roundTripChat bs = bs.filter isTextB ++ bs.filter isToolUseB := by
  rw [roundTripChat_eq, findFirstText_filter bs h1 h2]

/-- Witness for the amended round trip at a concrete interleaved history. -/
theorem c1_round_trip_witness :
    roundTripChat
      [ContentBlock.tool_use "t1" "glob" [("pat", JVal.str "*.ts")],
       ContentBlock.text "hi"] =
      [ContentBlock.text "hi",
       ContentBlock.tool_use "t1" "glob" [("pat", JVal.str "*.ts")]] := by
  have h := c1_round_trip
    [ContentBlock.tool_use "t1" "glob" [("pat", JVal.str "*.ts")],
     ContentBlock.text "hi"] (by simp [isTextB]) (by simp)
  simpa [isTextB, isToolUseB] using h

section DispatchLemmas

/-- The dispatch fold with an arbitrary starting accumulator appends what
the dispatch of the blocks alone produces. -/
theorem dispatchTools_acc (rt : String → ToolArgs → String)
    (blocks : List ContentBlock) :
    ∀ acc : List ContentBlock × List Event,
      blocks.foldl (fun acc b =>
        match b with
        | ContentBlock.tool_use id name input =>
            (acc.1 ++ [ContentBlock.tool_result id (rt name input)],
             acc.2 ++ [Event.toolInvoked name id])
        | _ => acc) acc
      = (acc.1 ++ (dispatchTools rt blocks).1,
         acc.2 ++ (dispatchTools rt blocks).2) := by
  induction blocks with
  | nil => intro acc; simp [dispatchTools]
  | cons b rest ih =>
    intro acc
    cases b with
    | text t => simpa [dispatchTools, List.foldl_cons] using ih acc
    | tool_result tuid c => simpa [dispatchTools, List.foldl_cons] using ih acc
    | tool_use id name input =>
      simp only [dispatchTools, List.foldl_cons]
      rw [ih, ih]
      simp

/-- Characterization of the dispatch loop: the built results and the
invocation events are the image of the tool_use triples, in order. -/
theorem dispatchTools_eq (rt : String → ToolArgs → String)
    (blocks : List ContentBlock) :
    (dispatchTools rt blocks).1 = (toolUseTriples blocks).map
      (fun x => ContentBlock.tool_result x.1 (rt x.2.1 x.2.2)) ∧
    (dispatchTools rt blocks).2 = (toolUseTriples blocks).map
      (fun x => Event.toolInvoked x.2.1 x.1) := by
  induction blocks with
  | nil => exact ⟨rfl, rfl⟩
  | cons b rest ih =>
    cases b with
    | text t => simpa [dispatchTools, toolUseTriples, List.foldl_cons] using ih
    | tool_result tuid c =>
      simpa [dispatchTools, toolUseTriples, List.foldl_cons] using ih
    | tool_use id name input =>
      simp only [dispatchTools, List.foldl_cons]
      rw [dispatchTools_acc rt rest]
      simp [toolUseTriples, List.filterMap_cons, ih.1, ih.2]

/-- A block list with no tool_use block dispatches to nothing. -/
theorem dispatchTools_empty (rt : String → ToolArgs → String)
    (blocks : List ContentBlock)
    (h : ∀ b ∈ blocks, isToolUseB b = false) :
    (dispatchTools rt blocks).1 = [] := by
  rw [(dispatchTools_eq rt blocks).1]
  have : toolUseTriples blocks = [] := by
    induction blocks with
    | nil => rfl
    | cons b rest ih =>
      cases b with
      | text t => exact ih (fun b hb => h b (List.mem_cons_of_mem _ hb))
      | tool_result tuid c => exact ih (fun b hb => h b (List.mem_cons_of_mem _ hb))
      | tool_use id name input =>
        have hx := h (ContentBlock.tool_use id name input) (by simp)
        simp [isToolUseB] at hx
  rw [this]
  rfl

end DispatchLemmas

/-- C2: in one DispatchingTools transition over a model response, the built
tool_result list is in one-to-one correspondence with the tool_use blocks of
the response, in order: one tool_result per tool_use, carrying exactly the
originating id as its tool_use_id, and none extra; the tool invocations run
strictly in the order the tool_use blocks appear. The built list is what
the transition appends as the user tool_result message. -/
theorem c2_correlation (rt : String → ToolArgs → String)
    (blocks : List ContentBlock) :
    (dispatchTools rt blocks).1 = (toolUseTriples blocks).map
      (fun x => ContentBlock.tool_result x.1 (rt x.2.1 x.2.2)) ∧
    (dispatchTools rt blocks).2 = (toolUseTriples blocks).map
      (fun x => Event.toolInvoked x.2.1 x.1) :=
  dispatchTools_eq rt blocks

/-- C3: the runTool boundary never lets a failure escape: an unregistered
name and a raising handler both come back as an ordinary string prefixed
with error:. Totality of the embedding mirrors that every path returns a
string. -/
theorem c3_runTool_safe (tools : List (String × ToolFn)) (name : String)
    (args : ToolArgs) :
    (tools.lookup name = none →
      ∃ rest, runTool tools name args = "error:" ++ rest) ∧
    (∀ f e, tools.lookup name = some f → f args = Except.error e →
      ∃ rest, runTool tools name args = "error:" ++ rest) := by
  constructor
  · intro h
    refine ⟨" Cannot read properties of undefined (reading fn)", ?_⟩
    simp only [runTool, h]
    rfl
  · intro f e hf he
    refine ⟨" " ++ e, ?_⟩
    simp only [runTool, hf, he]
    have h : ("error: " : String) = "error:" ++ " " := rfl
    rw [h, String.append_assoc]

/-- Witness for the runTool boundary: an unregistered tool name yields an
error-prefixed result. -/
theorem c3_witness :
    ∃ rest, runTool [] "frobnicate" [] = "error:" ++ rest :=
  (c3_runTool_safe [] "frobnicate" []).1 rfl

/-- C4: the claim fails as stated. In a decoded turn with one tool_use
block, the tool invocation event precedes the append of the assistant
message: the source pushes the assistant message only after the block loop
has run every tool, so no assistant append is seen before the invocation. -/
theorem c4_counterexample :
    toolsAfterAssistant false
      (turnIteration (fun _ _ => "a.ts")
        [ContentBlock.tool_use "t1" "glob" []] []).2.2 = false := by
  rfl

/-- C4 (amended): in every successfully decoded iteration the assistant
message with the turn content blocks is appended to the history in the same
iteration, but after every tool invocation of that turn: each tool
invocation event strictly precedes the assistant append event, which in
turn happens before the tool_result user message is appended by the loop. -/
theorem c4_assistant_after_tools (rt : String → ToolArgs → String)
    (blocks : List ContentBlock) (history : List Message) :
    (turnIteration rt blocks history).1 =
      history ++ [⟨Role.assistant, MContent.blocks blocks⟩] ∧
    (∀ (j : Nat) (e : Event),
      ((turnIteration rt blocks history).2.2)[j]? = some e →
      isToolInvokedE e = true →
      ∃ i : Nat, j < i ∧ ((turnIteration rt blocks history).2.2)[i]? =
        some (Event.appendAssistant blocks)) := by
  constructor
  · rfl
  · intro j e hj he
    have hshape : (turnIteration rt blocks history).2.2 =
        (Event.modelRequest :: (dispatchTools rt blocks).2) ++
          [Event.appendAssistant blocks] := rfl
    rw [hshape] at hj ⊢
    refine ⟨(Event.modelRequest :: (dispatchTools rt blocks).2).length, ?_,
      List.getElem?_concat_length _ _⟩
    obtain ⟨hlt, hval⟩ := List.getElem?_eq_some.mp hj
    rw [List.length_append, List.length_singleton] at hlt
    rcases Nat.lt_or_ge j (Event.modelRequest :: (dispatchTools rt blocks).2).length
      with hlt2 | hge
    · exact hlt2
    · exfalso
      have hj' : j = (Event.modelRequest :: (dispatchTools rt blocks).2).length := by
        omega
      rw [hj', List.getElem?_concat_length] at hj
      cases hj
      simp [isToolInvokedE] at he

/-- Witness for the amended ordering: in a concrete turn the invocation at
index one is followed by the assistant append. -/
theorem c4_assistant_after_tools_witness :
    ∃ i, 1 < i ∧
      ((turnIteration (fun _ _ => "a.ts")
        [ContentBlock.tool_use "t1" "glob" []] []).2.2)[i]? =
        some (Event.appendAssistant [ContentBlock.tool_use "t1" "glob" []]) :=
  (c4_assistant_after_tools (fun _ _ => "a.ts")
    [ContentBlock.tool_use "t1" "glob" []] []).2 1
    (Event.toolInvoked "glob" "t1") (by rfl) (by rfl)

/-- C5: the claim fails as stated. When the first tool_result block carries
the empty string as its tool_use_id, the encoder does not take that id: the
falsy check replaces it with the placeholder unknown. -/
theorem c5_counterexample :
    (encodeMessageGroq
      ⟨Role.user, MContent.blocks [ContentBlock.tool_result "" "out"]⟩).map
      ChatMessage.tool_call_id = [some "unknown"] ∧
    ("unknown" : String) ≠ "" := by
  exact ⟨rfl, by decide⟩

/-- C5 (amended): a canonical user message whose content is an array of
tool_result blocks is encoded as exactly one chat message with role tool,
and when the tool_use_id of the first block is nonempty the correlation id
is taken from that first block, however many tool_result blocks the array
contains; an empty first id falls back to the placeholder unknown. -/
theorem c5_tool_message (id content : String) (rest : List ContentBlock)
    (h : ¬ id = "") :
    encodeMessageGroq ⟨Role.user,
        MContent.blocks (ContentBlock.tool_result id content :: rest)⟩ =
      [⟨"tool",
        some (stringifyBlocks (ContentBlock.tool_result id content :: rest)),
        some id, none⟩] := by
  simp [encodeMessageGroq, firstToolCallId, h]

/-- Witness for the tool-message encoding at a two-result array. -/
theorem c5_tool_message_witness :
    encodeMessageGroq ⟨Role.user, MContent.blocks
        [ContentBlock.tool_result "t1" "ok",
         ContentBlock.tool_result "t2" "done"]⟩ =
      [⟨"tool",
        some (stringifyBlocks [ContentBlock.tool_result "t1" "ok",
          ContentBlock.tool_result "t2" "done"]),
        some "t1", none⟩] :=
  c5_tool_message "t1" "ok" [ContentBlock.tool_result "t2" "done"] (by decide)

/-- C6: a non-success HTTP status on the first model request of a user turn
raises the API error carrying status code and body; the turn ends with that
error reported (the outer catch prints it and the loop returns to awaiting
user input), the history holds only the user message already appended, and
exactly one request was made: no automatic retry. -/
theorem c6_transport_error (rt : String → ToolArgs → String)
    (model : Nat → Except String (List ContentBlock)) (fuel : Nat)
    (history : List Message) (input : String) (status : Nat) (body : String)
    (h : model 0 = Except.error (apiErrorMessage status body)) :
    userTurn rt model (fuel + 1) history input =
      ⟨history ++ [⟨Role.user, MContent.str input⟩],
       Outcome.errored (apiErrorMessage status body), 1⟩ := by
  simp [userTurn, agenticLoop, h]

/-- Witness for the transport-error turn at a concrete scripted failure. -/
theorem c6_transport_error_witness :
    userTurn (fun _ _ => "") (fun _ => Except.error (apiErrorMessage 500 "boom"))
        1 [] "hi" =
      ⟨[⟨Role.user, MContent.str "hi"⟩],
       Outcome.errored (apiErrorMessage 500 "boom"), 1⟩ :=
  c6_transport_error (fun _ _ => "")
    (fun _ => Except.error (apiErrorMessage 500 "boom")) 0 [] "hi" 500 "boom" rfl

section LoopLemmas

/-- The agentic loop only ever appends to the history, and every appended
message has the assistant or the user role. -/
theorem agenticLoop_history (rt : String → ToolArgs → String)
    (model : Nat → Except String (List ContentBlock)) :
    ∀ (fuel k : Nat) (h : List Message), ∃ s : List Message,
      (agenticLoop rt model fuel k h).history = h ++ s ∧
      ∀ m ∈ s, m.role = Role.assistant ∨ m.role = Role.user := by
  intro fuel
  induction fuel with
  | zero => intro k h; exact ⟨[], by simp [agenticLoop], by simp⟩
  | succ fuel ih =>
    intro k h
    cases hm : model k with
    | error e => exact ⟨[], by simp [agenticLoop, hm], by simp⟩
    | ok blocks =>
      by_cases hb : (dispatchTools rt blocks).1 = []
      · refine ⟨[⟨Role.assistant, MContent.blocks blocks⟩], ?_, by simp⟩
        simp [agenticLoop, hm, turnIteration, hb]
      · obtain ⟨s, hs, hroles⟩ := ih (k + 1)
          (h ++ [⟨Role.assistant, MContent.blocks blocks⟩,
            ⟨Role.user, MContent.blocks (dispatchTools rt blocks).1⟩])
        refine ⟨⟨Role.assistant, MContent.blocks blocks⟩ ::
          ⟨Role.user, MContent.blocks (dispatchTools rt blocks).1⟩ :: s, ?_, ?_⟩
        · simp [agenticLoop, hm, turnIteration, hb]
          rw [hs]
          simp
        · intro m hm'
          rcases List.mem_cons.mp hm' with h' | hm''
          · simp [h']
          · rcases List.mem_cons.mp hm'' with h' | hm'''
            · simp [h']
            · exact hroles m hm'''

/-- One REPL step either clears the history or appends messages whose roles
are assistant or user. -/
theorem replStep_shape (rt : String → ToolArgs → String)
    (model : Nat → Except String (List ContentBlock)) (fuel : Nat)
    (h : List Message) (input : String) :
    replStep rt model fuel h input = [] ∨
      ∃ s, replStep rt model fuel h input = h ++ s ∧
        ∀ m ∈ s, m.role = Role.assistant ∨ m.role = Role.user := by
  unfold replStep
  split_ifs with h1 h2 h3
  · exact Or.inr ⟨[], by simp⟩
  · exact Or.inr ⟨[], by simp⟩
  · exact Or.inl rfl
  · obtain ⟨s, hs, hroles⟩ := agenticLoop_history rt model fuel 0
      (h ++ [⟨Role.user, MContent.str input⟩])
    refine Or.inr ⟨⟨Role.user, MContent.str input⟩ :: s, ?_, ?_⟩
    · unfold userTurn
      rw [hs]
      simp
    · intro m hm'
      rcases List.mem_cons.mp hm' with h' | hm''
      · simp [h']
      · exact hroles m hm''

end LoopLemmas

/-- C7: every reachable history holds only user-role and assistant-role
messages, never the system role, and every transition either appends to the
history or resets it to empty; no individual message is removed or
modified. -/
theorem c7_history_invariant (h : List Message) (hr : Reachable h) :
    (∀ m ∈ h, m.role = Role.user ∨ m.role = Role.assistant) ∧
    (∀ (rt : String → ToolArgs → String)
      (model : Nat → Except String (List ContentBlock)) (fuel : Nat)
      (input : String),
      replStep rt model fuel h input = [] ∨
        ∃ s, replStep rt model fuel h input = h ++ s) := by
  constructor
  · induction hr with
    | init => simp
    | step h rt model fuel input hr ih =>
      rcases replStep_shape rt model fuel h input with he | ⟨s, hs, hroles⟩
      · rw [he]; simp
      · rw [hs]
        intro m hm'
        rcases List.mem_append.mp hm' with h1 | h2
        · exact ih m h1
        · rcases hroles m h2 with h' | h'
          · exact Or.inr h'
          · exact Or.inl h'
  · intro rt model fuel input
    rcases replStep_shape rt model fuel h input with he | ⟨s, hs, _⟩
    · exact Or.inl he
    · exact Or.inr ⟨s, hs⟩

/-- Witness for the history invariant at the reachable empty history. -/
theorem c7_history_invariant_witness :
    (∀ m ∈ ([] : List Message), m.role = Role.user ∨ m.role = Role.assistant) ∧
    (∀ (rt : String → ToolArgs → String)
      (model : Nat → Except String (List ContentBlock)) (fuel : Nat)
      (input : String),
      replStep rt model fuel [] input = [] ∨
        ∃ s, replStep rt model fuel [] input = [] ++ s) :=
  c7_history_invariant [] Reachable.init

/-- C8: for every registered tool and every declared parameter, the derived
schema lists the parameter in required exactly when the declared type does
not end with the optionality marker, and the emitted property type is
integer for a declared number and the base type itself otherwise. -/
theorem c8_schema :
    ∀ td ∈ TOOLS, ∃ se ∈ makeSchema, se.name = td.name ∧
      ∀ pt ∈ td.params,
        ((pt.1 ∈ se.required ↔ strEndsWith pt.2 "?" = false) ∧
         (pt.1, if jsReplaceFirst pt.2 "?" "" = "number" then "integer"
             else jsReplaceFirst pt.2 "?" "") ∈ se.properties) := by
  decide

/-- Witness for the schema claim at the read tool. -/
theorem c8_schema_witness :
    ∃ se ∈ makeSchema,
      se.name = (⟨"read", "Read file with line numbers (file path, not directory)",
        [("path", "string"), ("offset", "number?"), ("limit", "number?")]⟩ :
          ToolDef).name ∧
      ∀ pt ∈ (⟨"read", "Read file with line numbers (file path, not directory)",
        [("path", "string"), ("offset", "number?"), ("limit", "number?")]⟩ :
          ToolDef).params,
        ((pt.1 ∈ se.required ↔ strEndsWith pt.2 "?" = false) ∧
         (pt.1, if jsReplaceFirst pt.2 "?" "" = "number" then "integer"
             else jsReplaceFirst pt.2 "?" "") ∈ se.properties) :=
  c8_schema _ (by decide)

/-- C9: when the first model response of a user turn holds zero tool_use
blocks, the turn performs exactly one model request, ends with the done
outcome (back to awaiting user input), and appends exactly two messages:
the user message and the assistant message. -/
theorem c9_single_request (rt : String → ToolArgs → String)
    (model : Nat → Except String (List ContentBlock)) (fuel : Nat)
    (history : List Message) (input : String) (blocks : List ContentBlock)
    (hm : model 0 = Except.ok blocks)
    (hnb : ∀ b ∈ blocks, isToolUseB b = false) :
    userTurn rt model (fuel + 1) history input =
      ⟨history ++ [⟨Role.user, MContent.str input⟩,
        ⟨Role.assistant, MContent.blocks blocks⟩],
       Outcome.done, 1⟩ := by
  have hd : (dispatchTools rt blocks).1 = [] := dispatchTools_empty rt blocks hnb
  simp [userTurn, agenticLoop, hm, turnIteration, hd]

/-- Witness for the single-request turn at a concrete scripted response. -/
theorem c9_single_request_witness :
    userTurn (fun _ _ => "") (fun _ => Except.ok [ContentBlock.text "hello"])
        1 [] "hi" =
      ⟨[⟨Role.user, MContent.str "hi"⟩,
        ⟨Role.assistant, MContent.blocks [ContentBlock.text "hello"]⟩],
       Outcome.done, 1⟩ :=
  c9_single_request (fun _ _ => "") (fun _ => Except.ok [ContentBlock.text "hello"])
    0 [] "hi" [ContentBlock.text "hello"] rfl (by decide)

/-- C10: the edit tool writes the file exactly on the path that returns ok:
every run either returns ok and performs the write, or returns a result
prefixed with error: and performs no write, leaving the file unchanged. -/
theorem c10_edit_only_writes_on_ok (text old new : String) (all : Bool) :
    ((editFile text old new all).1 = "ok" ∧
      ((editFile text old new all).2).isSome = true) ∨
    ((∃ rest, (editFile text old new all).1 = "error:" ++ rest) ∧
      (editFile text old new all).2 = none) := by
  unfold editFile
  by_cases h1 : jsIncludes text old = false
  · rw [if_pos h1]
    exact Or.inr ⟨⟨" old_string not found", rfl⟩, rfl⟩
  · rw [if_neg h1]
    by_cases h2 : all = false ∧ jsGlobalMatchCount text old > 1
    · rw [if_pos h2]
      refine Or.inr ⟨⟨" old_string appears " ++
        toString (jsGlobalMatchCount text old) ++
        " times, must be unique (use all=true)", ?_⟩, rfl⟩
      show "error: old_string appears " ++
        toString (jsGlobalMatchCount text old) ++
        " times, must be unique (use all=true)" = _
      have h : ("error: old_string appears " : String) =
          "error:" ++ " old_string appears " := rfl
      rw [h, String.append_assoc, String.append_assoc, String.append_assoc]
    · rw [if_neg h2]
      exact Or.inl ⟨rfl, rfl⟩

end CodeSmol
